import Mathlib

/-!
Verification of the core logic of `rss2telegram` (package `rss2telegram`,
file `rss2telegram.go`): new-item selection with a publish-time watermark,
watermark persistence in a keyed document store, and message rendering with
an HTML-conversion fallback.

Modelling conventions:
* `time.Time` is modelled as `Int`; the Go zero value `time.Time{}` is `0`,
  and `a.After b` is `b < a` (Go `time.Time` is totally ordered).
* `gofeed.Item` is modelled by `Item`; `PublishedParsed == nil` is
  `publishedParsed = none`.
* The delivery call `sendToTelegram` inside the loop is abstracted by an
  oracle `deliver : Item → Bool` (`true` = the call returned `nil`); the Go
  code only logs the error, so the oracle's answers may not influence
  anything but the set of logged failures.
* Firestore is modelled as an association list of chat documents; transport
  outcomes of `Get` are an explicit `GetResult`.
-/

namespace Rss2Telegram

/-- Timestamps: `time.Time` as an integer instant; `0` is Go's zero value. -/
abbrev Time := Int

/-- A feed item (`gofeed.Item`): title, HTML content, optional parsed
publish time (`PublishedParsed`, `nil` modelled as `none`). -/
structure Item where
  title : String
  content : String
  publishedParsed : Option Time
deriving DecidableEq, Repr

/-- The publish time of an item, defaulting to the zero instant;
only used on items known to carry a timestamp. -/
def tsOf (it : Item) : Time := it.publishedParsed.getD 0

/-- The loop's per-item guard in `RSS2Telegram`: the item is processed
(delivery attempted) iff `PublishedParsed != nil` and
`PublishedParsed.After(publishedAt)`. -/
def selected (publishedAt : Time) (it : Item) : Bool :=
  match it.publishedParsed with
  | none => false
  | some ts => publishedAt < ts

/-- State threaded through the `for` loop of `RSS2Telegram`:
the running `newPublishedAt`, the items for which delivery was attempted
(in processing order), and the items whose delivery failed (logged). -/
structure LoopState where
  newPublishedAt : Time
  attempted : List Item
  failed : List Item
deriving DecidableEq, Repr

/-- One iteration of the loop body of `RSS2Telegram` (lines 81–97):
skip items without a publish time, skip items not strictly after the
watermark, otherwise overwrite `newPublishedAt` with this item's time and
attempt delivery, only logging a delivery failure. -/
def loopStep (deliver : Item → Bool) (publishedAt : Time)
    (st : LoopState) (it : Item) : LoopState :=
  match it.publishedParsed with
  | none => st
  | some ts =>
    if publishedAt < ts then
      { newPublishedAt := ts
        attempted := st.attempted ++ [it]
        failed := if deliver it then st.failed else st.failed ++ [it] }
    else st

/-- The whole loop: `for i := len(feed.Items) - 1; 0 <= i; i--` visits the
feed in reverse order, i.e. folds the loop body over `items.reverse`,
starting from `var newPublishedAt time.Time` (the zero value) and no
attempts. -/
def runLoop (deliver : Item → Bool) (publishedAt : Time)
    (items : List Item) : LoopState :=
  items.reverse.foldl (loopStep deliver publishedAt)
    { newPublishedAt := 0, attempted := [], failed := [] }

/-- Result of one invocation of the core of `RSS2Telegram` after the
watermark was read: the delivery attempts, the logged failures, the final
`newPublishedAt`, and the watermark write (`some v` iff
`!newPublishedAt.IsZero()`, in which case `writePublishedAt` is called
with `newPublishedAt`). -/
structure RunResult where
  attempted : List Item
  failed : List Item
  newPublishedAt : Time
  writtenValue : Option Time
deriving DecidableEq, Repr

/-- The core of `RSS2Telegram` (lines 78–104): run the selection/delivery
loop over the fetched feed with the stored watermark `publishedAt`, then
write `newPublishedAt` iff it is not the zero value. -/
def rss2TelegramCore (deliver : Item → Bool) (items : List Item)
    (publishedAt : Time) : RunResult :=
  let st := runLoop deliver publishedAt items
  { attempted := st.attempted
    failed := st.failed
    newPublishedAt := st.newPublishedAt
    writtenValue :=
      if st.newPublishedAt ≠ 0 then some st.newPublishedAt else none }

/-- Pair ordering for `newestFirst`: when both items carry publish times,
the first one's time is not smaller; vacuous otherwise. -/
def nfRel (a b : Item) : Bool :=
  match a.publishedParsed, b.publishedParsed with
  | some ta, some tb => decide (tb ≤ ta)
  | _, _ => true

/-- The feed is ordered newest-first: whenever one item precedes another in
the feed and both carry publish times, the earlier-positioned item's time
is not smaller. Items without a publish time may appear anywhere. -/
def newestFirst (items : List Item) : Prop :=
  items.Pairwise (fun a b => nfRel a b = true)

/-- The maximum publish time among a list of items (zero when empty);
used to state the spec's "maximum publish timestamp among attempted
items". -/
def maxTsOf (l : List Item) : Time :=
  l.foldl (fun acc it => max acc (tsOf it)) 0

/-- The last item of a list satisfying the selection guard, i.e. the item
whose time the loop's `newPublishedAt` holds after folding over the list. -/
def lastSel (w : Time) : List Item → Option Item
  | [] => none
  | x :: l =>
    match lastSel w l with
    | some it => some it
    | none => if selected w x then some x else none

theorem foldl_attempted (d : Item → Bool) (w : Time) (l : List Item)
    (st : LoopState) :
    (l.foldl (loopStep d w) st).attempted =
      st.attempted ++ l.filter (selected w) := by
  induction l generalizing st with
  | nil => simp
  | cons x l ih =>
    simp only [List.foldl_cons, ih, List.filter_cons]
    unfold loopStep selected
    cases h : x.publishedParsed with
    | none => simp
    | some ts =>
      by_cases hw : w < ts
      · simp [hw]
      · simp [hw]

theorem foldl_newPub (d : Item → Bool) (w : Time) (l : List Item)
    (st : LoopState) :
    (l.foldl (loopStep d w) st).newPublishedAt =
      match lastSel w l with
      | some it => tsOf it
      | none => st.newPublishedAt := by
  induction l generalizing st with
  | nil => simp [lastSel]
  | cons x l ih =>
    simp only [List.foldl_cons, ih, lastSel]
    cases hl : lastSel w l with
    | some it => simp
    | none =>
      unfold loopStep selected
      cases h : x.publishedParsed with
      | none => simp
      | some ts =>
        by_cases hw : w < ts
        · simp [hw, tsOf, h]
        · simp [hw]

theorem lastSel_append (w : Time) (l₁ l₂ : List Item) :
    lastSel w (l₁ ++ l₂) =
      match lastSel w l₂ with
      | some it => some it
      | none => lastSel w l₁ := by
  induction l₁ with
  | nil =>
    simp only [List.nil_append]
    cases h : lastSel w l₂ <;> simp [lastSel, h]
  | cons x l ih =>
    simp only [List.cons_append, lastSel]
    cases h : lastSel w l₂ <;> cases h' : lastSel w l <;>
      simp [ih, h, h']

theorem lastSel_reverse (w : Time) (items : List Item) :
    lastSel w items.reverse = items.find? (selected w) := by
  induction items with
  | nil => simp [lastSel]
  | cons x l ih =>
    rw [List.reverse_cons, lastSel_append, List.find?_cons]
    cases hx : selected w x <;> simp [lastSel, hx, ih]

theorem core_attempted (d : Item → Bool) (items : List Item) (w : Time) :
    (rss2TelegramCore d items w).attempted =
      (items.filter (selected w)).reverse := by
  simp only [rss2TelegramCore, runLoop, foldl_attempted, List.nil_append,
    List.filter_reverse]

theorem core_newPub (d : Item → Bool) (items : List Item) (w : Time) :
    (rss2TelegramCore d items w).newPublishedAt =
      match items.find? (selected w) with
      | some it => tsOf it
      | none => 0 := by
  simp only [rss2TelegramCore, runLoop, foldl_newPub, lastSel_reverse]

theorem core_writtenValue (d : Item → Bool) (items : List Item) (w : Time) :
    (rss2TelegramCore d items w).writtenValue =
      if (rss2TelegramCore d items w).newPublishedAt ≠ 0 then
        some (rss2TelegramCore d items w).newPublishedAt
      else none := by
  simp [rss2TelegramCore]

theorem selected_iff (w : Time) (it : Item) :
    selected w it = true ↔
      ∃ ts, it.publishedParsed = some ts ∧ w < ts := by
  unfold selected
  cases h : it.publishedParsed with
  | none => simp
  | some ts => simp [decide_eq_true_iff]

theorem nfRel_le {a b : Item} {ta tb : Time} (h : nfRel a b = true)
    (ha : a.publishedParsed = some ta) (hb : b.publishedParsed = some tb) :
    tb ≤ ta := by
  unfold nfRel at h
  rw [ha, hb] at h
  exact of_decide_eq_true h

theorem mem_attempted (d : Item → Bool) (items : List Item) (w : Time)
    (it : Item) :
    it ∈ (rss2TelegramCore d items w).attempted ↔
      it ∈ items ∧ selected w it = true := by
  rw [core_attempted, List.mem_reverse, List.mem_filter]

theorem find?_of_filter_cons {p : Item → Bool} {items rest : List Item}
    {it : Item} (h : items.filter p = it :: rest) :
    items.find? p = some it := by
  induction items with
  | nil => simp at h
  | cons x l ih =>
    rw [List.filter_cons] at h
    rw [List.find?_cons]
    cases hx : p x with
    | true =>
      rw [hx] at h
      simp only [if_pos rfl] at h
      simp [hx, (List.cons_eq_cons.mp h).1]
    | false =>
      rw [hx] at h
      simp only [Bool.false_eq_true, if_neg] at h
      simp [hx, ih h]

theorem sel_le_find_sel {items : List Item} {w : Time} {it0 : Item}
    (hnf : newestFirst items)
    (hfind : items.find? (selected w) = some it0) :
    ∀ it ∈ items, selected w it = true → tsOf it ≤ tsOf it0 := by
  induction items with
  | nil => simp at hfind
  | cons x l ih =>
    rw [List.find?_cons] at hfind
    rcases List.pairwise_cons.mp hnf with ⟨hx, hl⟩
    intro it hmem hsel
    cases hxsel : selected w x with
    | true =>
      rw [hxsel] at hfind
      simp only [if_pos rfl, Option.some_inj] at hfind
      subst hfind
      rcases List.mem_cons.mp hmem with heq | hmem'
      · subst heq; exact le_refl _
      · rcases (selected_iff w it).mp hsel with ⟨ts, hts, -⟩
        rcases (selected_iff w x).mp hxsel with ⟨ts0, hts0, -⟩
        have := nfRel_le (hx it hmem') hts0 hts
        simp [tsOf, hts, hts0, this]
    | false =>
      rw [hxsel] at hfind
      simp only [Bool.false_eq_true, if_neg] at hfind
      rcases List.mem_cons.mp hmem with heq | hmem'
      · subst heq; rw [hsel] at hxsel; cases hxsel
      · exact ih hl hfind it hmem' hsel

theorem newPub_mem_attempted (d : Item → Bool) (items : List Item)
    (w : Time) (h : (rss2TelegramCore d items w).attempted ≠ []) :
    ∃ it0, items.find? (selected w) = some it0 ∧
      it0 ∈ (rss2TelegramCore d items w).attempted ∧
      (rss2TelegramCore d items w).newPublishedAt = tsOf it0 ∧
      w < tsOf it0 := by
  rw [core_attempted] at h ⊢
  rcases hf : items.filter (selected w) with _ | ⟨it0, rest⟩
  · rw [hf] at h; simp at h
  · have hfind := find?_of_filter_cons hf
    refine ⟨it0, hfind, ?_, ?_, ?_⟩
    · rw [List.mem_reverse]; exact List.mem_cons_self it0 rest
    · rw [core_newPub, hfind]
    · have : it0 ∈ items.filter (selected w) := by
        rw [hf]; exact List.mem_cons_self it0 rest
      rcases (selected_iff w it0).mp (List.mem_filter.mp this).2 with
        ⟨ts, hts, hlt⟩
      simpa [tsOf, hts] using hlt

/-- Claim C1: for every feed sequence and watermark, an item of the feed
has a delivery attempted for it iff it carries a publish timestamp that is
strictly after the watermark; in particular an item without a timestamp is
never selected and one whose timestamp equals the watermark is excluded. -/
theorem c1_selected_iff_after_watermark (d : Item → Bool)
    (items : List Item) (w : Time) (it : Item) (hmem : it ∈ items) :
    it ∈ (rss2TelegramCore d items w).attempted ↔
      ∃ ts, it.publishedParsed = some ts ∧ w < ts := by
  rw [mem_attempted, selected_iff]
  simp [hmem]

theorem c1_witness :
    (⟨"t", "c", some 3⟩ : Item) ∈
      (rss2TelegramCore (fun _ => true) [⟨"t", "c", some 3⟩] 0).attempted :=
  (c1_selected_iff_after_watermark (fun _ => true) [⟨"t", "c", some 3⟩] 0
    ⟨"t", "c", some 3⟩ (by simp)).mpr ⟨3, rfl, by decide⟩

/-- Claim C2 fails as stated: on the feed `[item@5, item@10]` (oldest
first, i.e. not newest-first) with watermark `0`, both items are attempted
but the final `newPublishedAt` is `5`, not the maximum `10` among the
attempted items. -/
theorem c2_counterexample :
    (rss2TelegramCore (fun _ => true)
        [⟨"a", "", some 5⟩, ⟨"b", "", some 10⟩] 0).attempted.map tsOf
      = [10, 5] ∧
    (rss2TelegramCore (fun _ => true)
        [⟨"a", "", some 5⟩, ⟨"b", "", some 10⟩] 0).newPublishedAt = 5 ∧
    ¬ (rss2TelegramCore (fun _ => true)
        [⟨"a", "", some 5⟩, ⟨"b", "", some 10⟩] 0).newPublishedAt
      = maxTsOf (rss2TelegramCore (fun _ => true)
        [⟨"a", "", some 5⟩, ⟨"b", "", some 10⟩] 0).attempted := by
  refine ⟨by decide, by decide, by decide⟩

/-- Claim C2 amended: after the loop the computed new watermark equals the
publish time of the selected item with the smallest index in the feed (the
last one the reverse-order loop processed), not in general the maximum over
attempted items; and when no item was selected the new watermark remains
the zero sentinel and no watermark write is performed. -/
theorem c2_amended (d : Item → Bool) (items : List Item) (w : Time) :
    ((rss2TelegramCore d items w).newPublishedAt =
      match items.find? (selected w) with
      | some it => tsOf it
      | none => 0) ∧
    ((rss2TelegramCore d items w).attempted = [] →
      (rss2TelegramCore d items w).newPublishedAt = 0 ∧
      (rss2TelegramCore d items w).writtenValue = none) := by
  refine ⟨core_newPub d items w, ?_⟩
  intro h
  rw [core_attempted, List.reverse_eq_nil_iff] at h
  have hfind : items.find? (selected w) = none := by
    rw [List.find?_eq_none]
    intro it hmem hsel
    have : it ∈ items.filter (selected w) := List.mem_filter.mpr ⟨hmem, hsel⟩
    rw [h] at this
    cases this
  have hnp : (rss2TelegramCore d items w).newPublishedAt = 0 := by
    rw [core_newPub, hfind]
  exact ⟨hnp, by rw [core_writtenValue, hnp]; simp⟩

theorem c2_amended_witness :
    (rss2TelegramCore (fun _ => true) [⟨"a", "", none⟩] 7).newPublishedAt
        = 0 ∧
    (rss2TelegramCore (fun _ => true) [⟨"a", "", none⟩] 7).writtenValue
        = none :=
  (c2_amended (fun _ => true) [⟨"a", "", none⟩] 7).2 (by decide)

/-- Claim C3 fails as stated: on the feed `[item@5, item@10]` with
watermark `0` the items are delivered in order of publish times `[10, 5]`,
which is not non-decreasing. -/
theorem c3_counterexample :
    (rss2TelegramCore (fun _ => true)
        [⟨"a", "", some 5⟩, ⟨"b", "", some 10⟩] 0).attempted.map tsOf
      = [10, 5] ∧
    ¬ (rss2TelegramCore (fun _ => true)
        [⟨"a", "", some 5⟩, ⟨"b", "", some 10⟩] 0).attempted.Pairwise
        (fun a b => tsOf a ≤ tsOf b) := by
  refine ⟨by decide, by decide⟩

/-- Claim C3 amended: every selected item's publish time is strictly
greater than the input watermark (for all feeds), and provided the feed is
ordered newest-first the selected items are emitted in non-decreasing
publish-time order. -/
theorem c3_amended (d : Item → Bool) (items : List Item) (w : Time) :
    (∀ it ∈ (rss2TelegramCore d items w).attempted,
       ∃ ts, it.publishedParsed = some ts ∧ w < ts) ∧
    (newestFirst items →
       (rss2TelegramCore d items w).attempted.Pairwise
         (fun a b => tsOf a ≤ tsOf b)) := by
  constructor
  · intro it hmem
    exact (selected_iff w it).mp ((mem_attempted d items w it).mp hmem).2
  · intro hnf
    rw [core_attempted, List.pairwise_reverse]
    have hp : (items.filter (selected w)).Pairwise
        (fun a b => nfRel a b = true) :=
      List.Pairwise.filter _ hnf
    refine List.Pairwise.imp_of_mem ?_ hp
    intro a b ha hb hr
    rcases (selected_iff w a).mp (List.mem_filter.mp ha).2 with ⟨ta, hta, -⟩
    rcases (selected_iff w b).mp (List.mem_filter.mp hb).2 with ⟨tb, htb, -⟩
    have := nfRel_le hr hta htb
    simp [tsOf, hta, htb, this]

theorem c3_amended_witness :
    (rss2TelegramCore (fun _ => true)
      [⟨"b", "", some 10⟩, ⟨"a", "", some 5⟩] 0).attempted.Pairwise
      (fun a b => tsOf a ≤ tsOf b) :=
  (c3_amended (fun _ => true) [⟨"b", "", some 10⟩, ⟨"a", "", some 5⟩] 0).2
    (by unfold newestFirst; decide)

/-- Claim C4 fails as stated: the feed `[item@5, item@10]` has all items
timestamped, the first run with watermark `0` computes new watermark `5`
(and writes it), and a second run with watermark `5` selects `item@10`
again, so the second selection is not empty. -/
theorem c4_counterexample :
    (([⟨"a", "", some 5⟩, ⟨"b", "", some 10⟩] : List Item).all
        (fun it => it.publishedParsed.isSome)) = true ∧
    (rss2TelegramCore (fun _ => true)
        [⟨"a", "", some 5⟩, ⟨"b", "", some 10⟩] 0).writtenValue = some 5 ∧
    ¬ (rss2TelegramCore (fun _ => true)
        [⟨"a", "", some 5⟩, ⟨"b", "", some 10⟩]
        ((rss2TelegramCore (fun _ => true)
          [⟨"a", "", some 5⟩, ⟨"b", "", some 10⟩] 0).newPublishedAt)).attempted
      = [] := by
  refine ⟨by decide, by decide, by decide⟩

/-- Claim C4 amended: provided the feed is ordered newest-first and the
initial watermark is not before the zero instant, running the selector
again with the watermark in effect after the first run (the written value,
or the unchanged original when nothing was written) selects no items. -/
theorem c4_amended (d d' : Item → Bool) (items : List Item) (w : Time)
    (hnf : newestFirst items) (hw : 0 ≤ w) :
    (rss2TelegramCore d' items
      (match (rss2TelegramCore d items w).writtenValue with
       | some v => v
       | none => w)).attempted = [] := by
  by_cases h : (rss2TelegramCore d items w).attempted = []
  · have hfilter : items.filter (selected w) = [] := by
      rw [core_attempted, List.reverse_eq_nil_iff] at h
      exact h
    have hfind : items.find? (selected w) = none := by
      rw [List.find?_eq_none]
      intro it hmem hsel
      have : it ∈ items.filter (selected w) :=
        List.mem_filter.mpr ⟨hmem, hsel⟩
      rw [hfilter] at this
      cases this
    have hwv : (rss2TelegramCore d items w).writtenValue = none := by
      rw [core_writtenValue, core_newPub, hfind]
      simp
    rw [hwv, core_attempted, List.reverse_eq_nil_iff]
    exact hfilter
  · rcases newPub_mem_attempted d items w h with ⟨it0, hfind, -, hnp, hlt⟩
    have hwv : (rss2TelegramCore d items w).writtenValue = some (tsOf it0) := by
      rw [core_writtenValue, hnp, if_pos]
      exact ne_of_gt (lt_of_le_of_lt hw hlt)
    rw [hwv, core_attempted, List.reverse_eq_nil_iff,
      List.filter_eq_nil_iff]
    intro it hmem hsel
    rcases (selected_iff _ it).mp hsel with ⟨ts, hts, hgt⟩
    have hselw : selected w it = true :=
      (selected_iff w it).mpr ⟨ts, hts, lt_trans hlt hgt⟩
    have hle := sel_le_find_sel hnf hfind it hmem hselw
    rw [tsOf, hts] at hle
    exact absurd hgt (not_lt.mpr hle)

theorem c4_amended_witness :
    (rss2TelegramCore (fun _ => true)
      [⟨"b", "", some 10⟩, ⟨"a", "", some 5⟩]
      (match (rss2TelegramCore (fun _ => false)
        [⟨"b", "", some 10⟩, ⟨"a", "", some 5⟩] 0).writtenValue with
       | some v => v
       | none => 0)).attempted = [] :=
  c4_amended (fun _ => false) (fun _ => true)
    [⟨"b", "", some 10⟩, ⟨"a", "", some 5⟩] 0
    (by unfold newestFirst; decide) (by decide)

/-- Claim C5: delivery failures are only logged: the attempted items, the
final new watermark and the watermark write are identical for every
delivery oracle (so a failure stops neither the loop nor the watermark
advance), and when the only attempted item is `it` — in particular when
its delivery failed — the watermark is written with `it`'s publish time. -/
theorem c5_delivery_failure_harmless (d d' : Item → Bool)
    (items : List Item) (w : Time) (hw : 0 ≤ w) :
    (rss2TelegramCore d items w).attempted =
        (rss2TelegramCore d' items w).attempted ∧
    (rss2TelegramCore d items w).newPublishedAt =
        (rss2TelegramCore d' items w).newPublishedAt ∧
    (rss2TelegramCore d items w).writtenValue =
        (rss2TelegramCore d' items w).writtenValue ∧
    ∀ it, (rss2TelegramCore d items w).attempted = [it] →
      (rss2TelegramCore d items w).writtenValue = some (tsOf it) := by
  have ha : (rss2TelegramCore d items w).attempted =
      (rss2TelegramCore d' items w).attempted := by
    rw [core_attempted, core_attempted]
  have hn : (rss2TelegramCore d items w).newPublishedAt =
      (rss2TelegramCore d' items w).newPublishedAt := by
    rw [core_newPub, core_newPub]
  refine ⟨ha, hn, by rw [core_writtenValue, core_writtenValue, hn], ?_⟩
  intro it hone
  have hne : (rss2TelegramCore d items w).attempted ≠ [] := by
    rw [hone]; exact List.cons_ne_nil it []
  rcases newPub_mem_attempted d items w hne with ⟨it0, -, hmem, hnp, hlt⟩
  rw [hone, List.mem_singleton] at hmem
  subst hmem
  rw [core_writtenValue, hnp, if_pos]
  exact ne_of_gt (lt_of_le_of_lt hw hlt)

theorem c5_witness :
    (rss2TelegramCore (fun _ => false) [⟨"t", "c", some 3⟩] 0).writtenValue
      = some 3 := by
  have h := (c5_delivery_failure_harmless (fun _ => false) (fun _ => true)
    [⟨"t", "c", some 3⟩] 0 (by decide)).2.2.2 ⟨"t", "c", some 3⟩ (by decide)
  simpa [tsOf] using h

/-- Claim C6: whenever an invocation writes a watermark, the written value
is not less than (indeed strictly greater than) the watermark read at the
start of the invocation. -/
theorem c6_watermark_monotone (d : Item → Bool) (items : List Item)
    (w v : Time) (h : (rss2TelegramCore d items w).writtenValue = some v) :
    w ≤ v := by
  rw [core_writtenValue] at h
  by_cases hz : (rss2TelegramCore d items w).newPublishedAt ≠ 0
  · rw [if_pos hz, Option.some_inj] at h
    subst h
    rw [core_newPub] at hz ⊢
    cases hfind : items.find? (selected w) with
    | none => rw [hfind] at hz; simp at hz
    | some it0 =>
      rcases (selected_iff w it0).mp (List.find?_some hfind) with
        ⟨ts, hts, hlt⟩
      show w ≤ tsOf it0
      rw [tsOf, hts]
      exact le_of_lt hlt
  · rw [if_neg hz] at h
    cases h

theorem c6_witness : (0 : Time) ≤ 3 :=
  c6_watermark_monotone (fun _ => true) [⟨"t", "c", some 3⟩] 0 3 (by decide)

/-- Claim C10: when at least one item is selected and the watermark is not
before the zero instant, the watermark written at the end equals the
publish time of the selected item with the smallest index in the input
sequence (the last one processed by the reverse-order loop), for every
feed ordering; and when the feed is ordered newest-first this value is an
upper bound of (hence the maximum among) all attempted items' times. -/
theorem c10_first_selected_wins (d : Item → Bool) (items : List Item)
    (w : Time) (hw : 0 ≤ w)
    (h : (rss2TelegramCore d items w).attempted ≠ []) :
    (∃ it0, items.find? (selected w) = some it0 ∧
      (rss2TelegramCore d items w).newPublishedAt = tsOf it0 ∧
      (rss2TelegramCore d items w).writtenValue = some (tsOf it0)) ∧
    (newestFirst items →
      ∀ it ∈ (rss2TelegramCore d items w).attempted,
        tsOf it ≤ (rss2TelegramCore d items w).newPublishedAt) := by
  rcases newPub_mem_attempted d items w h with ⟨it0, hfind, -, hnp, hlt⟩
  constructor
  · refine ⟨it0, hfind, hnp, ?_⟩
    rw [core_writtenValue, hnp, if_pos]
    exact ne_of_gt (lt_of_le_of_lt hw hlt)
  · intro hnf it hmem
    rw [hnp]
    rcases (mem_attempted d items w it).mp hmem with ⟨hmem', hsel⟩
    exact sel_le_find_sel hnf hfind it hmem' hsel

theorem c10_witness :
    ∃ it0, ([⟨"a", "", some 5⟩, ⟨"b", "", some 10⟩] : List Item).find?
        (selected 0) = some it0 ∧
      (rss2TelegramCore (fun _ => true)
        [⟨"a", "", some 5⟩, ⟨"b", "", some 10⟩] 0).newPublishedAt
        = tsOf it0 ∧
      (rss2TelegramCore (fun _ => true)
        [⟨"a", "", some 5⟩, ⟨"b", "", some 10⟩] 0).writtenValue
        = some (tsOf it0) :=
  (c10_first_selected_wins (fun _ => true)
    [⟨"a", "", some 5⟩, ⟨"b", "", some 10⟩] 0 (by decide) (by decide)).1

/-- A Firestore value stored at `publishedAt.<rssURL>`: either a
`time.Time` value or a value of some other type, on which the type
assertion `data.(time.Time)` in `readPublishedAt` fails. -/
inductive FSValue where
  | time (t : Time)
  | other
deriving DecidableEq, Repr

/-- A document of the `chats` collection: the optional `publishedAt` map
field from feed URL to stored value (an association list); `none` means
the document has no `publishedAt` field. -/
structure ChatDoc where
  publishedAt : Option (List (String × FSValue))
deriving DecidableEq, Repr

/-- Lookup in an association list (first binding wins). -/
def lookupA {β : Type} : List (String × β) → String → Option β
  | [], _ => none
  | (k, v) :: rest, key => if k = key then some v else lookupA rest key

/-- Insert-or-replace in an association list. -/
def insertA {β : Type} : List (String × β) → String → β →
    List (String × β)
  | [], key, v => [(key, v)]
  | (k, v0) :: rest, key, v =>
    if k = key then (key, v) :: rest else (k, v0) :: insertA rest key v

theorem lookupA_insertA_self {β : Type} (m : List (String × β))
    (k : String) (v : β) : lookupA (insertA m k v) k = some v := by
  induction m with
  | nil => simp [insertA, lookupA]
  | cons p rest ih =>
    rcases p with ⟨k0, v0⟩
    unfold insertA
    by_cases hk : k0 = k
    · simp [hk, lookupA]
    · simp [hk, lookupA, ih]

theorem lookupA_insertA_ne {β : Type} (m : List (String × β))
    (k k' : String) (v : β) (hne : k ≠ k') :
    lookupA (insertA m k v) k' = lookupA m k' := by
  induction m with
  | nil => simp [insertA, lookupA, hne]
  | cons p rest ih =>
    rcases p with ⟨k0, v0⟩
    unfold insertA
    by_cases hk : k0 = k
    · subst hk
      simp [lookupA, hne]
    · simp [hk, lookupA, ih]

/-- Model of `DocumentSnapshot.DataAtPath([]string{"publishedAt", rssURL})`:
`none` models the error case (the `publishedAt` field or the nested key
is missing). -/
def dataAtPath (doc : ChatDoc) (rssURL : String) : Option FSValue :=
  match doc.publishedAt with
  | none => none
  | some m => lookupA m rssURL

/-- Outcome of `client.Collection("chats").Doc(chatID).Get(ctx)`: the
document snapshot, a NotFound status, or a genuine transport/backend
error. -/
inductive GetResult where
  | found (doc : ChatDoc)
  | notFound
  | backendError
deriving DecidableEq, Repr

/-- Model of `readPublishedAt` (lines 110–133): a NotFound `Get` yields the zero
time with no error; any other `Get` error is returned; a failing
`DataAtPath` or a failing type assertion to `time.Time` also yield the
zero time with no error. -/
def readPublishedAt (g : GetResult) (rssURL : String) : Except Unit Time :=
  match g with
  | .backendError => .error ()
  | .notFound => .ok 0
  | .found doc =>
    match dataAtPath doc rssURL with
    | none => .ok 0
    | some (.time t) => .ok t
    | some .other => .ok 0

/-- The `chats` collection, keyed by chat id. -/
abbrev ChatsCollection := List (String × ChatDoc)

/-- Firestore `Update` on an existing document with
`FieldPath{"publishedAt", rssURL}`: sets the nested entry, creating the
`publishedAt` map when it is absent and leaving all other entries of the
map intact. -/
def updateNested (doc : ChatDoc) (rssURL : String) (t : Time) : ChatDoc :=
  { publishedAt :=
      some (insertA (doc.publishedAt.getD []) rssURL (FSValue.time t)) }

/-- Model of `writePublishedAt` (lines 136–159): update the nested field of the
chat document; when `Update` reports NotFound (the document is missing),
fall back to `Set` creating the document as
`{"publishedAt": {rssURL: t}}`. -/
def writePublishedAt (chats : ChatsCollection) (chatID rssURL : String)
    (t : Time) : ChatsCollection :=
  match lookupA chats chatID with
  | some doc => insertA chats chatID (updateNested doc rssURL t)
  | none => insertA chats chatID ⟨some [(rssURL, FSValue.time t)]⟩

/-- The stored watermark entry for `(chatID, rssURL)`, if any. -/
def storedEntry (chats : ChatsCollection) (chatID rssURL : String) :
    Option FSValue :=
  match lookupA chats chatID with
  | none => none
  | some doc => dataAtPath doc rssURL

/-- Claim C7: the watermark read returns the zero time with no error when
the chat document does not exist, when the nested entry for the feed URL
is missing, and when the stored value is not a timestamp; it returns an
error exactly for genuine transport/backend failures of `Get`. -/
theorem c7_read_tolerates_missing (g : GetResult) (url : String) :
    (g = GetResult.notFound → readPublishedAt g url = .ok 0) ∧
    (∀ doc, g = GetResult.found doc → dataAtPath doc url = none →
      readPublishedAt g url = .ok 0) ∧
    (∀ doc, g = GetResult.found doc →
      dataAtPath doc url = some FSValue.other →
      readPublishedAt g url = .ok 0) ∧
    ((∃ e, readPublishedAt g url = .error e) ↔
      g = GetResult.backendError) := by
  refine ⟨?_, ?_, ?_, ?_, ?_⟩
  · intro h; subst h; rfl
  · intro doc h hd; subst h; simp [readPublishedAt, hd]
  · intro doc h hd; subst h; simp [readPublishedAt, hd]
  · rintro ⟨e, he⟩
    cases g with
    | backendError => rfl
    | notFound => simp [readPublishedAt] at he
    | found doc =>
      cases hd : dataAtPath doc url with
      | none => simp [readPublishedAt, hd] at he
      | some v =>
        cases v with
        | time t => simp [readPublishedAt, hd] at he
        | other => simp [readPublishedAt, hd] at he
  · intro h; subst h; exact ⟨(), rfl⟩

theorem c7_witness :
    readPublishedAt (GetResult.found ⟨some [("f", FSValue.other)]⟩) "f"
      = .ok 0 :=
  (c7_read_tolerates_missing
    (GetResult.found ⟨some [("f", FSValue.other)]⟩) "f").2.2.1
    ⟨some [("f", FSValue.other)]⟩ rfl (by decide)

/-- Claim C8: the watermark write upserts only the nested entry for the
given feed URL: a missing chat document is created holding exactly that
entry, the written entry reads back as the written time, entries for
every other feed URL under the same chat are unchanged, and every other
chat document is unchanged. -/
theorem c8_write_upserts_nested (chats : ChatsCollection)
    (chatID url : String) (t : Time) :
    (lookupA chats chatID = none →
      lookupA (writePublishedAt chats chatID url t) chatID =
        some ⟨some [(url, FSValue.time t)]⟩) ∧
    storedEntry (writePublishedAt chats chatID url t) chatID url =
      some (FSValue.time t) ∧
    (∀ url', url ≠ url' →
      storedEntry (writePublishedAt chats chatID url t) chatID url' =
        storedEntry chats chatID url') ∧
    (∀ chatID', chatID ≠ chatID' →
      lookupA (writePublishedAt chats chatID url t) chatID' =
        lookupA chats chatID') := by
  refine ⟨?_, ?_, ?_, ?_⟩
  · intro h
    unfold writePublishedAt
    rw [h, lookupA_insertA_self]
  · unfold storedEntry writePublishedAt
    cases h : lookupA chats chatID with
    | none =>
      rw [lookupA_insertA_self]
      simp [dataAtPath, lookupA]
    | some doc =>
      rw [lookupA_insertA_self]
      simp [dataAtPath, updateNested, lookupA_insertA_self]
  · intro url' hne
    unfold storedEntry writePublishedAt
    cases h : lookupA chats chatID with
    | none =>
      rw [lookupA_insertA_self]
      simp [dataAtPath, lookupA, hne]
    | some doc =>
      rw [lookupA_insertA_self]
      cases hp : doc.publishedAt with
      | none =>
        simp [dataAtPath, updateNested, hp,
          lookupA_insertA_ne _ _ _ _ hne, lookupA, hne]
      | some m =>
        simp [dataAtPath, updateNested, hp,
          lookupA_insertA_ne _ _ _ _ hne]
  · intro chatID' hne
    unfold writePublishedAt
    cases h : lookupA chats chatID with
    | none => rw [lookupA_insertA_ne _ _ _ _ hne]
    | some doc => rw [lookupA_insertA_ne _ _ _ _ hne]

theorem c8_witness :
    lookupA (writePublishedAt [] "chat" "u" 4) "chat" =
      some ⟨some [("u", FSValue.time 4)]⟩ :=
  (c8_write_upserts_nested [] "chat" "u" 4).1 rfl

/-- Outcome of the HTTP POST performed by `sendToTelegram`: a transport
error or a response with a status code and a body. -/
inductive PostResult where
  | netError
  | response (status : Nat) (body : String)
deriving DecidableEq, Repr

/-- The message text built by `sendToTelegram`:
`fmt.Sprintf("*%s*\n\n%s", item.Title, content)`, where `content` is the
converted HTML on success and the raw `item.Content` when the converter
returned an error (the converter is modelled by `conv`, `none` meaning
failure). -/
def deliveredText (conv : String → Option String) (it : Item) : String :=
  let content :=
    match conv it.content with
    | some c => c
    | none => it.content
  "*" ++ it.title ++ "*" ++ "\n\n" ++ content

/-- How `sendToTelegram` turns the POST outcome into its return value:
transport errors are returned, a 200 response is success, and any other
status yields an error carrying the code and body. -/
def postOutcome (r : PostResult) : Except String Unit :=
  match r with
  | .netError => .error "post failed"
  | .response 200 _ => .ok ()
  | .response code body =>
    .error ("status code: " ++ toString code ++ ", data: " ++ body)

/-- Model of `sendToTelegram` (lines 161–175): build the text — falling back to
the raw content when conversion fails — and POST it; the result depends
only on the HTTP outcome. -/
def sendToTelegram (conv : String → Option String)
    (post : String → PostResult) (it : Item) : Except String Unit :=
  postOutcome (post (deliveredText conv it))

/-- Claim C9: when the HTML conversion of an item fails, delivery is still
attempted and the delivered text is the raw original content prefixed by
the bold-rendered title and a blank line; no error is produced by the
conversion failure — the call's result is determined by the HTTP outcome
alone, and a 200 response makes it succeed. -/
theorem c9_render_fallback (conv : String → Option String) (it : Item)
    (h : conv it.content = none) :
    deliveredText conv it =
      "*" ++ it.title ++ "*" ++ "\n\n" ++ it.content ∧
    (∀ post : String → PostResult,
      sendToTelegram conv post it =
        postOutcome (post ("*" ++ it.title ++ "*" ++ "\n\n" ++
          it.content))) ∧
    (∀ body, sendToTelegram conv
        (fun _ => PostResult.response 200 body) it = .ok ()) := by
  have hd : deliveredText conv it =
      "*" ++ it.title ++ "*" ++ "\n\n" ++ it.content := by
    unfold deliveredText
    rw [h]
  refine ⟨hd, fun post => ?_, fun body => ?_⟩
  · unfold sendToTelegram
    rw [hd]
  · unfold sendToTelegram
    rfl

theorem c9_witness :
    deliveredText (fun _ => none) ⟨"T", "<p>x</p>", none⟩ =
      "*" ++ "T" ++ "*" ++ "\n\n" ++ "<p>x</p>" :=
  (c9_render_fallback (fun _ => none) ⟨"T", "<p>x</p>", none⟩ rfl).1

end Rss2Telegram
